import Mathlib

/-!
Verification of the validatyr evidence-aggregation and staged-scoring
pipeline (backend services `ai_analyzer.py`, `community_scraper.py`,
`discovery.py` and the API layer `routes.py`).

The Python code is shallowly embedded: pure computations become Lean
functions, Python `float` arithmetic over the score weights is modelled
exactly over `ℚ` (all weights are small decimal constants and every input
dimension is an integer, so the exact rational value agrees with the IEEE
double computation at every point used by a theorem below), exceptions
become `Except`, and the behaviour of external collaborators (the Gemini
backend, HTTP fetchers, per-source scrapers) is a parameter of the embedded
function, so theorems quantify over every possible collaborator behaviour.
-/

namespace Validatyr

/-! ## Score aggregation (`ai_analyzer.analyze_reviews_multi_agent`,
lines 148-168, and the streaming copy in `routes.validate_idea_stream`,
lines 239-252). -/

/-- `OpportunityScoreBreakdown` from `ai_analyzer.py` (pydantic model with
seven unbounded `int` dimensions). -/
structure OpportunityScoreBreakdown where
  pain_severity : ℤ
  market_gap : ℤ
  mvp_feasibility : ℤ
  competition_density : ℤ
  monetization_potential : ℤ
  community_demand : ℤ
  startup_saturation : ℤ
deriving DecidableEq

/-- Python's built-in `round` on the exact value: round to nearest with
ties going to the even integer (banker's rounding). -/
def pyRound (q : ℚ) : ℤ :=
  if q - (⌊q⌋ : ℚ) < 1/2 then ⌊q⌋
  else if 1/2 < q - (⌊q⌋ : ℚ) then ⌊q⌋ + 1
  else if Even ⌊q⌋ then ⌊q⌋ else ⌊q⌋ + 1

/-- The weighted sum of `analyze_reviews_multi_agent` (ai_analyzer.py lines
159-167), in the source's order of addition; the float weights
0.25, 0.20, ... are the exact rationals 25/100, 20/100, ... -/
def weightedSum (b : OpportunityScoreBreakdown) : ℚ :=
  (b.pain_severity : ℚ) * (25/100)
    + (b.market_gap : ℚ) * (20/100)
    + (b.mvp_feasibility : ℚ) * (15/100)
    + (b.competition_density : ℚ) * (15/100)
    + (b.monetization_potential : ℚ) * (10/100)
    + (b.community_demand : ℚ) * (10/100)
    + (b.startup_saturation : ℚ) * (5/100)

/-- `opportunity_score` as computed by `analyze_reviews_multi_agent`:
`round(...)` followed by `max(0, min(100, score))`. -/
def aggregate (b : OpportunityScoreBreakdown) : ℤ :=
  max 0 (min 100 (pyRound (weightedSum b)))

/-- `pyRound` fixes integers. -/
theorem pyRound_intCast (n : ℤ) : pyRound ((n : ℚ)) = n := by
  unfold pyRound
  rw [Int.floor_intCast, sub_self]
  norm_num

/-- `pyRound` at an exact tie `n + 1/2` picks the even neighbour. -/
theorem pyRound_add_half (n : ℤ) :
    pyRound ((n : ℚ) + 1/2) = if Even n then n else n + 1 := by
  unfold pyRound
  have hfloor : (⌊(n : ℚ) + 1/2⌋ : ℤ) = n := by
    rw [add_comm, Int.floor_add_int]
    norm_num
  rw [hfloor]
  have hr : (n : ℚ) + 1/2 - (n : ℚ) = 1/2 := by ring
  rw [hr, if_neg (lt_irrefl _), if_neg (lt_irrefl _)]

/-- The streaming copy (routes.py lines 250-252):
`max(0, min(100, round(sum(getattr(breakdown, k) * v for k, v in
weights.items()))))`; Python's `sum` starts from `0` and the dict
iterates in insertion order. -/
def aggregateStream (b : OpportunityScoreBreakdown) : ℤ :=
  max 0 (min 100 (pyRound
    ((0 : ℚ)
      + (b.pain_severity : ℚ) * (25/100)
      + (b.market_gap : ℚ) * (20/100)
      + (b.mvp_feasibility : ℚ) * (15/100)
      + (b.competition_density : ℚ) * (15/100)
      + (b.monetization_potential : ℚ) * (10/100)
      + (b.community_demand : ℚ) * (10/100)
      + (b.startup_saturation : ℚ) * (5/100))))

/-- The aggregation step as the specification describes it: the same
weighted sum but rounded with round-half-UP semantics (a fractional part of
exactly .5 rounds to the next larger integer), then clamped. -/
def specAggregateHalfUp (b : OpportunityScoreBreakdown) : ℤ :=
  max 0 (min 100 ⌊weightedSum b + 1/2⌋)

/-- The all-100 breakdown. -/
def breakdownAll100 : OpportunityScoreBreakdown := ⟨100, 100, 100, 100, 100, 100, 100⟩

/-- The all-0 breakdown. -/
def breakdownAll0 : OpportunityScoreBreakdown := ⟨0, 0, 0, 0, 0, 0, 0⟩

/-- A breakdown whose exact weighted sum is 1/2: pain_severity 2, all other
dimensions 0 (2 · 0.25 = 0.5, exactly representable as a double, so the
Python float computation also yields exactly 0.5 here). -/
def breakdownTie : OpportunityScoreBreakdown := ⟨2, 0, 0, 0, 0, 0, 0⟩

/-- In range 0..100 in every dimension. -/
def InRange (b : OpportunityScoreBreakdown) : Prop :=
  0 ≤ b.pain_severity ∧ b.pain_severity ≤ 100 ∧
  0 ≤ b.market_gap ∧ b.market_gap ≤ 100 ∧
  0 ≤ b.mvp_feasibility ∧ b.mvp_feasibility ≤ 100 ∧
  0 ≤ b.competition_density ∧ b.competition_density ≤ 100 ∧
  0 ≤ b.monetization_potential ∧ b.monetization_potential ≤ 100 ∧
  0 ≤ b.community_demand ∧ b.community_demand ≤ 100 ∧
  0 ≤ b.startup_saturation ∧ b.startup_saturation ≤ 100

instance (b : OpportunityScoreBreakdown) : Decidable (InRange b) := by
  unfold InRange; infer_instance

/-- C1: for every breakdown with each dimension in [0,100] the composite
score is in [0,100]; the all-100 breakdown scores exactly 100 and the all-0
breakdown scores exactly 0. -/
theorem composite_score_bounded (b : OpportunityScoreBreakdown) (h : InRange b) :
    (0 ≤ aggregate b ∧ aggregate b ≤ 100)
      ∧ aggregate breakdownAll100 = 100 ∧ aggregate breakdownAll0 = 0 := by
  refine ⟨⟨le_max_left 0 _, max_le (by norm_num) (min_le_left 100 _)⟩, ?_, ?_⟩
  · have hws : weightedSum breakdownAll100 = ((100 : ℤ) : ℚ) := by
      norm_num [weightedSum, breakdownAll100]
    unfold aggregate
    rw [hws, pyRound_intCast]
    decide
  · have hws : weightedSum breakdownAll0 = ((0 : ℤ) : ℚ) := by
      norm_num [weightedSum, breakdownAll0]
    unfold aggregate
    rw [hws, pyRound_intCast]
    decide

/-- Witness: `composite_score_bounded` applied at the all-100 breakdown. -/
theorem composite_score_bounded_witness :
    InRange breakdownAll100 ∧
      ((0 ≤ aggregate breakdownAll100 ∧ aggregate breakdownAll100 ≤ 100)
        ∧ aggregate breakdownAll100 = 100 ∧ aggregate breakdownAll0 = 0) :=
  ⟨by decide, composite_score_bounded breakdownAll100 (by decide)⟩

/-- C2 counterexample: at pain_severity 2 (all else 0) the exact weighted
sum is 0.5; the code (Python `round`, ties to even) returns 0 while the
round-half-up rule the claim states returns 1. -/
theorem aggregate_is_not_half_up :
    aggregate breakdownTie ≠ specAggregateHalfUp breakdownTie ∧
      aggregate breakdownTie = 0 ∧ specAggregateHalfUp breakdownTie = 1 := by
  have hws : weightedSum breakdownTie = ((0 : ℤ) : ℚ) + 1/2 := by
    norm_num [weightedSum, breakdownTie]
  have h1 : aggregate breakdownTie = 0 := by
    unfold aggregate
    rw [hws, pyRound_add_half]
    decide
  have h2 : specAggregateHalfUp breakdownTie = 1 := by
    unfold specAggregateHalfUp
    rw [hws]
    have h : ((0 : ℤ) : ℚ) + 1/2 + 1/2 = 1 := by norm_num
    rw [h, Int.floor_one]
    decide
  exact ⟨by rw [h1, h2]; decide, h1, h2⟩

/-- C2 amended: the composite score is the stated weighted sum rounded with
Python's round-half-to-even semantics and clamped to [0,100]; the
synchronous and the streaming implementation agree on every input, and at
an exact tie `n + 1/2` the result is the clamp of the even neighbour. -/
theorem aggregate_half_even_and_stream_eq (b : OpportunityScoreBreakdown) :
    aggregateStream b = aggregate b
      ∧ (∀ n : ℤ, weightedSum b = (n : ℚ) + 1/2 →
          aggregate b = max 0 (min 100 (if Even n then n else n + 1))) := by
  constructor
  · unfold aggregateStream aggregate weightedSum
    rw [zero_add]
  · intro n hn
    unfold aggregate pyRound
    rw [hn]
    have hfloor : (⌊(n : ℚ) + 1/2⌋ : ℤ) = n := by
      rw [add_comm, Int.floor_add_int]
      norm_num
    rw [hfloor]
    have hr : (n : ℚ) + 1/2 - (n : ℚ) = 1/2 := by ring
    rw [hr, if_neg (lt_irrefl _), if_neg (lt_irrefl _)]

/-- Witness: `aggregate_half_even_and_stream_eq` at the tie breakdown with
`n = 0`. -/
theorem aggregate_half_even_and_stream_eq_witness :
    aggregateStream breakdownTie = aggregate breakdownTie
      ∧ aggregate breakdownTie
        = max 0 (min 100 (if Even (0 : ℤ) then (0 : ℤ) else 0 + 1)) :=
  ⟨(aggregate_half_even_and_stream_eq breakdownTie).1,
   (aggregate_half_even_and_stream_eq breakdownTie).2 0
     (by norm_num [weightedSum, breakdownTie])⟩

/-! ## Category classifier (`ai_analyzer.detect_category`, lines 16-44).

The Gemini client is an external collaborator; the structured output it
would return for the idea text is a parameter `backend`, and the second
component of the result counts how many calls were made to it. -/

/-- `CategoryDetectionOutput` (pydantic model).  The `Literal` annotation on
`category` is recorded by the predicate `validCategories.contains` below;
`detect_category`'s backend path validates against it. -/
structure CategoryDetectionOutput where
  category : String
  subcategory : String
  rationale : String
deriving DecidableEq

/-- The closed enumeration `valid` from `detect_category`. -/
def validCategories : List String := ["mobile_app", "hardware", "fintech", "saas_web"]

/-- The `defaults` subcategory table from `detect_category`. -/
def categoryDefaults (c : String) : String :=
  if c = "mobile_app" then "cross_platform"
  else if c = "hardware" then "consumer hardware"
  else if c = "fintech" then "payments"
  else if c = "saas_web" then "B2B SaaS"
  else ""

/-- `detect_category(client, idea, user_category)`: if `user_category` is
truthy (non-empty) and a member of `valid`, short-circuit; otherwise invoke
the backend.  Returns the output plus the number of backend calls. -/
def detect_category (userCategory : Option String)
    (backend : CategoryDetectionOutput) : CategoryDetectionOutput × Nat :=
  match userCategory with
  | some u =>
      if u ≠ "" ∧ u ∈ validCategories then
        (⟨u, categoryDefaults u, "User-selected"⟩, 0)
      else (backend, 1)
  | none => (backend, 1)

/-- C4: an explicit category that is a member of the closed enumeration is
returned immediately with zero backend calls. -/
theorem detect_category_short_circuit (u : String) (h : u ∈ validCategories)
    (backend : CategoryDetectionOutput) :
    (detect_category (some u) backend).1.category = u
      ∧ (detect_category (some u) backend).2 = 0 := by
  have hne : u ≠ "" := by
    rintro rfl
    simp [validCategories] at h
  simp [detect_category, if_pos (And.intro hne h)]

/-- Witness: `detect_category_short_circuit` at "fintech". -/
theorem detect_category_short_circuit_witness :
    (detect_category (some "fintech") ⟨"saas_web", "x", "y"⟩).1.category = "fintech"
      ∧ (detect_category (some "fintech") ⟨"saas_web", "x", "y"⟩).2 = 0 :=
  detect_category_short_circuit "fintech" (by decide) ⟨"saas_web", "x", "y"⟩

/-- C10: an explicit category outside the enumeration is silently ignored:
the backend is consulted (exactly one call), its answer is returned
unchanged, and — since the backend's schema restricts it to the
enumeration — the returned category is never the invalid value. -/
theorem detect_category_invalid_ignored (u : String) (hu : u ∉ validCategories)
    (backend : CategoryDetectionOutput)
    (hb : backend.category ∈ validCategories) :
    detect_category (some u) backend = (backend, 1)
      ∧ (detect_category (some u) backend).1.category ≠ u := by
  have hcond : ¬ (u ≠ "" ∧ u ∈ validCategories) := fun hc => hu hc.2
  have heq : detect_category (some u) backend = (backend, 1) := by
    simp only [detect_category, if_neg hcond]
  refine ⟨heq, ?_⟩
  rw [heq]
  intro hc
  exact hu (hc ▸ hb)

/-- Witness: `detect_category_invalid_ignored` at the misspelling
"sas_web". -/
theorem detect_category_invalid_ignored_witness :
    detect_category (some "sas_web") ⟨"saas_web", "B2B SaaS", "r"⟩
        = (⟨"saas_web", "B2B SaaS", "r"⟩, 1)
      ∧ (detect_category (some "sas_web") ⟨"saas_web", "B2B SaaS", "r"⟩).1.category
        ≠ "sas_web" :=
  detect_category_invalid_ignored "sas_web" (by decide)
    ⟨"saas_web", "B2B SaaS", "r"⟩ (by decide)

/-! ## Evidence body truncation
(`community_scraper.CommunityScraperService._truncate`, lines 172-178).

Texts are modelled as `List Char`; `str.strip()` is modelled over the
ASCII whitespace characters Python strips from the texts this service
handles. -/

/-- Whitespace as recognised by Python's `str.strip()` (ASCII subset). -/
def pyIsSpace (c : Char) : Bool :=
  c = ' ' || c = '\t' || c = '\n' || c = '\r' || c = '\x0b' || c = '\x0c'

/-- Python `text.strip()`: drop leading and trailing whitespace. -/
def pyStrip (s : List Char) : List Char :=
  ((s.dropWhile pyIsSpace).reverse.dropWhile pyIsSpace).reverse

/-- `_truncate(text, max_len)`: empty check, strip, then cap plus
ellipsis. -/
def truncate (s : List Char) (maxLen : Nat := 500) : List Char :=
  if s.isEmpty then []
  else
    if maxLen < (pyStrip s).length then (pyStrip s).take maxLen ++ ['.', '.', '.']
    else pyStrip s

/-- The head of a `dropWhile` result never satisfies the predicate. -/
theorem head_dropWhile_false (p : Char → Bool) :
    ∀ (l : List Char) (c : Char), (l.dropWhile p).head? = some c → p c = false := by
  intro l
  induction l with
  | nil => intro c hc; simp [List.dropWhile] at hc
  | cons a t ih =>
      intro c hc
      by_cases hpa : p a
      · rw [List.dropWhile_cons, if_pos hpa] at hc
        exact ih c hc
      · rw [List.dropWhile_cons, if_neg hpa] at hc
        simp at hc
        subst hc
        simpa using hpa

/-- `dropWhile` keeps a list whose head already fails the predicate. -/
theorem dropWhile_of_head_false (p : Char → Bool) (l : List Char) (c : Char)
    (hh : l.head? = some c) (hc : p c = false) : l.dropWhile p = l := by
  cases l with
  | nil => simp at hh
  | cons a t =>
      simp at hh
      rw [List.dropWhile_cons, hh, if_neg (by simp [hc])]

/-- The last element of a nonempty `dropWhile` result is the last element
of the input. -/
theorem getLast?_dropWhile (p : Char → Bool) :
    ∀ (l : List Char), l.dropWhile p ≠ [] → (l.dropWhile p).getLast? = l.getLast? := by
  intro l
  induction l with
  | nil => intro h; simp [List.dropWhile] at h
  | cons a t ih =>
      intro h
      by_cases hpa : p a
      · rw [List.dropWhile_cons, if_pos hpa] at h ⊢
        cases t with
        | nil => simp [List.dropWhile] at h
        | cons b u => rw [ih h, List.getLast?_cons_cons]
      · rw [List.dropWhile_cons, if_neg hpa]

/-- A stripped text has no leading whitespace. -/
theorem pyStrip_head (s : List Char) (c : Char)
    (h : (pyStrip s).head? = some c) : pyIsSpace c = false := by
  unfold pyStrip at h
  rw [List.head?_reverse] at h
  set y := (s.dropWhile pyIsSpace).reverse with hy
  have hne : y.dropWhile pyIsSpace ≠ [] := by
    intro he
    rw [he] at h
    simp at h
  rw [getLast?_dropWhile pyIsSpace y hne, hy, List.getLast?_reverse] at h
  exact head_dropWhile_false pyIsSpace _ c h

/-- A stripped text has no trailing whitespace. -/
theorem pyStrip_getLast (s : List Char) (c : Char)
    (h : (pyStrip s).getLast? = some c) : pyIsSpace c = false := by
  unfold pyStrip at h
  rw [List.getLast?_reverse] at h
  exact head_dropWhile_false pyIsSpace _ c h

/-- Stripping a text with no leading or trailing whitespace is a no-op. -/
theorem pyStrip_of_clean (l : List Char)
    (hh : ∀ c, l.head? = some c → pyIsSpace c = false)
    (hg : ∀ c, l.getLast? = some c → pyIsSpace c = false) :
    pyStrip l = l := by
  cases hl : l with
  | nil => simp [pyStrip, List.dropWhile]
  | cons a t =>
      have h1 : l.dropWhile pyIsSpace = l :=
        dropWhile_of_head_false pyIsSpace l a (by rw [hl]; rfl) (hh a (by rw [hl]; rfl))
      unfold pyStrip
      rw [← hl, h1]
      cases hr : l.reverse with
      | nil =>
          exfalso
          rw [hl] at hr
          simp at hr
      | cons b u =>
          have hb : l.getLast? = some b := by
            rw [← List.head?_reverse, hr]
            rfl
          have h2 : l.reverse.dropWhile pyIsSpace = l.reverse :=
            dropWhile_of_head_false pyIsSpace l.reverse b (by rw [hr]; rfl) (hg b hb)
          rw [← hr, h2, List.reverse_reverse]

/-- Stripping is idempotent. -/
theorem pyStrip_idem (s : List Char) : pyStrip (pyStrip s) = pyStrip s :=
  pyStrip_of_clean (pyStrip s) (pyStrip_head s) (pyStrip_getLast s)

/-- Unfolding equation for `truncate` at the default cap. -/
theorem truncate_eq (l : List Char) :
    truncate l = if l.isEmpty then []
      else if 500 < (pyStrip l).length then (pyStrip l).take 500 ++ ['.', '.', '.']
      else pyStrip l := rfl

/-- Taking a positive prefix preserves the head. -/
theorem head?_take_pos (l : List Char) (n : Nat) (hn : 0 < n) :
    (l.take n).head? = l.head? := by
  cases l with
  | nil => simp
  | cons a u =>
      cases n with
      | zero => omega
      | succ m => simp

/-- C8 counterexample: the two-character body `" a"` is at most 500
characters long but is not stored unchanged — `_truncate` strips it to
`"a"` first. -/
theorem truncate_strips_short_bodies :
    truncate [' ', 'a'] ≠ [' ', 'a'] ∧ truncate [' ', 'a'] = ['a'] := by
  constructor <;> decide

/-- C8 amended: `_truncate` first strips leading/trailing whitespace; a
stripped body over the 500-character cap becomes its 500-character prefix
plus an ellipsis, a stripped body at or under the cap is stored as the
stripped text, and truncation is idempotent. -/
theorem truncate_cap_and_idempotent (s : List Char) :
    ((pyStrip s).length ≤ 500 → truncate s = pyStrip s)
      ∧ (500 < (pyStrip s).length →
          truncate s = (pyStrip s).take 500 ++ ['.', '.', '.'])
      ∧ truncate (truncate s) = truncate s := by
  refine ⟨?_, ?_, ?_⟩
  · intro hle
    by_cases hs : s.isEmpty
    · have : s = [] := by cases s <;> simp_all
      subst this
      simp [truncate_eq, pyStrip, List.dropWhile]
    · rw [truncate_eq, if_neg (by simpa using hs), if_neg (by omega)]
  · intro hgt
    have hs : ¬ s.isEmpty := by
      intro he
      have : s = [] := by cases s <;> simp_all
      subst this
      simp [pyStrip, List.dropWhile] at hgt
    rw [truncate_eq, if_neg (by simpa using hs), if_pos hgt]
  · by_cases hs : s.isEmpty
    · have : s = [] := by cases s <;> simp_all
      subst this
      simp [truncate_eq]
    · by_cases hlong : 500 < (pyStrip s).length
      · -- long case: the truncated text is itself a fixed point
        have htr : truncate s = (pyStrip s).take 500 ++ ['.', '.', '.'] := by
          rw [truncate_eq, if_neg (by simpa using hs), if_pos hlong]
        set t := pyStrip s with ht
        have htlen : (t.take 500).length = 500 := by
          rw [List.length_take]
          omega
        have hne : truncate s ≠ [] := by
          rw [htr]
          intro he
          simp at he
        have hhead : ∀ c, (truncate s).head? = some c → pyIsSpace c = false := by
          intro c hc
          rw [htr] at hc
          cases hk : t.take 500 with
          | nil =>
              rw [hk] at htlen
              simp at htlen
          | cons x xs =>
              rw [hk] at hc
              simp at hc
              subst hc
              apply pyStrip_head s
              rw [← ht, ← head?_take_pos t 500 (by norm_num), hk]
              rfl
        have hlast : ∀ c, (truncate s).getLast? = some c → pyIsSpace c = false := by
          intro c hc
          rw [htr] at hc
          have h3 : t.take 500 ++ ['.', '.', '.'] = (t.take 500 ++ ['.', '.']) ++ ['.'] := by
            simp
          rw [h3, List.getLast?_concat] at hc
          have hcc : c = '.' := by
            injection hc with h4
            exact h4.symm
          subst hcc
          rfl
        have hstrip : pyStrip (truncate s) = truncate s :=
          pyStrip_of_clean (truncate s) hhead hlast
        have hcap : 500 < (pyStrip (truncate s)).length := by
          rw [hstrip, htr, List.length_append, htlen]
          simp
        rw [truncate_eq (truncate s), if_neg (by simpa using hne), if_pos hcap, hstrip, htr,
          List.take_append_eq_append_take, htlen, Nat.sub_self, List.take_zero,
          List.append_nil, List.take_of_length_le htlen.le]
      · -- short case: truncate s = pyStrip s, which strips to itself
        have htr : truncate s = pyStrip s := by
          rw [truncate_eq, if_neg (by simpa using hs), if_neg hlong]
        by_cases hemp : pyStrip s = []
        · rw [htr, hemp]
          simp [truncate_eq]
        · have hstr : pyStrip (truncate s) = truncate s := by
            rw [htr, pyStrip_idem]
          rw [truncate_eq (truncate s), if_neg (by simp [htr, hemp]), hstr, htr,
            if_neg hlong]

/-- Witness: `truncate_cap_and_idempotent` at the body `"ab"`. -/
theorem truncate_cap_and_idempotent_witness :
    truncate ['a', 'b'] = pyStrip ['a', 'b'] :=
  (truncate_cap_and_idempotent ['a', 'b']).1 (by decide)

/-! ## Community scraper (`community_scraper.CommunityScraperService.scrape_all`,
lines 104-157).

The per-source scraper methods (`_scrape_reddit`, ...) perform network I/O;
their behaviour for the run at hand is the parameter `scraperFn`, mapping
each source either to the post list it would return or to the exception it
would raise. -/

/-- The `CommunitySource` enum. -/
inductive CommunitySource where
  | reddit | hackernews | twitter | producthunt | g2
deriving DecidableEq

/-- `source.value` — the string payload of the enum. -/
def CommunitySource.value : CommunitySource → String
  | .reddit => "reddit"
  | .hackernews => "hackernews"
  | .twitter => "twitter"
  | .producthunt => "producthunt"
  | .g2 => "g2"

/-- `ScrapedPost` (pydantic model). -/
structure ScrapedPost where
  source : CommunitySource
  title : List Char := []
  content : List Char
  url : List Char := []
  author : List Char := []
  score : Option ℤ := none
  subreddit : List Char := []
deriving DecidableEq

/-- `CommunityScrapingResult` (pydantic model). -/
structure CommunityScrapingResult where
  posts : List ScrapedPost := []
  sources_succeeded : List String := []
  sources_failed : List String := []
deriving DecidableEq

/-- The module-level configuration flags read from the environment. -/
structure ScraperConfig where
  enabled : Bool
  twitterEnabled : Bool
  stealthyEnabled : Bool
  maxPerSource : Nat
deriving DecidableEq

/-- `CATEGORY_SOURCES` with the `.get(category, CATEGORY_SOURCES["mobile_app"])`
fallback used by the constructor. -/
def categorySources (category : String) : List CommunitySource :=
  if category = "mobile_app" then [.reddit, .hackernews, .twitter, .producthunt]
  else if category = "saas_web" then [.reddit, .hackernews, .twitter, .producthunt, .g2]
  else if category = "hardware" then [.reddit, .hackernews, .twitter, .producthunt]
  else if category = "fintech" then [.reddit, .hackernews, .twitter, .producthunt, .g2]
  else [.reddit, .hackernews, .twitter, .producthunt]

/-- The two `continue` guards at the top of the loop body: Twitter is
skipped when `SCRAPING_TWITTER_ENABLED` is false, and Twitter/G2 are
skipped when `SCRAPING_STEALTHY_ENABLED` is false. -/
def shouldSkip (cfg : ScraperConfig) (s : CommunitySource) : Bool :=
  (s = .twitter && !cfg.twitterEnabled)
    || ((s = .twitter || s = .g2) && !cfg.stealthyEnabled)

/-- The sources the loop actually attempts. -/
def attemptedSources (cfg : ScraperConfig) (category : String) : List CommunitySource :=
  (categorySources category).filter (fun s => !shouldSkip cfg s)

/-- One iteration of the `for source in self.sources` loop: skip guards,
then `try`/`except` around the dispatched scraper. -/
def scrapeStep (cfg : ScraperConfig) (scraperFn : CommunitySource → Except Unit (List ScrapedPost))
    (acc : CommunityScrapingResult) (s : CommunitySource) : CommunityScrapingResult :=
  if shouldSkip cfg s then acc
  else
    match scraperFn s with
    | .ok posts =>
        { acc with
          posts := acc.posts ++ posts.take cfg.maxPerSource
          sources_succeeded := acc.sources_succeeded ++ [s.value] }
    | .error _ =>
        { acc with sources_failed := acc.sources_failed ++ [s.value] }

/-- `scrape_all`: early return when scraping is disabled, otherwise the
loop over the category's sources. -/
def scrape_all (cfg : ScraperConfig) (category : String)
    (scraperFn : CommunitySource → Except Unit (List ScrapedPost)) : CommunityScrapingResult :=
  if !cfg.enabled then {}
  else (categorySources category).foldl (scrapeStep cfg scraperFn) {}

/-- Posts gathered by the loop over a source list. -/
def gatheredPosts (cfg : ScraperConfig)
    (scraperFn : CommunitySource → Except Unit (List ScrapedPost)) : List CommunitySource → List ScrapedPost
  | [] => []
  | s :: rest =>
      (if shouldSkip cfg s then []
       else match scraperFn s with
            | .ok posts => posts.take cfg.maxPerSource
            | .error _ => []) ++ gatheredPosts cfg scraperFn rest

/-- The `foldl` of the scraper loop, characterised source by source. -/
theorem foldl_scrapeStep (cfg : ScraperConfig)
    (scraperFn : CommunitySource → Except Unit (List ScrapedPost)) :
    ∀ (l : List CommunitySource) (acc : CommunityScrapingResult),
      l.foldl (scrapeStep cfg scraperFn) acc =
        { posts := acc.posts ++ gatheredPosts cfg scraperFn l
          sources_succeeded := acc.sources_succeeded
            ++ ((l.filter (fun s => !shouldSkip cfg s)).filter
                  (fun s => (scraperFn s).isOk)).map CommunitySource.value
          sources_failed := acc.sources_failed
            ++ ((l.filter (fun s => !shouldSkip cfg s)).filter
                  (fun s => !(scraperFn s).isOk)).map CommunitySource.value } := by
  intro l
  induction l with
  | nil => intro acc; simp [gatheredPosts]
  | cons s rest ih =>
      intro acc
      rw [List.foldl_cons, ih]
      by_cases hskip : shouldSkip cfg s
      · simp [scrapeStep, hskip, gatheredPosts]
      · cases hfn : scraperFn s with
        | ok posts =>
            simp [scrapeStep, hskip, hfn, gatheredPosts, Except.isOk, Except.toBool]
        | error e =>
            simp [scrapeStep, hskip, hfn, gatheredPosts, Except.isOk, Except.toBool]

/-- C3: with scraping enabled, each attempted source whose scraper raises is
recorded in `sources_failed` and each whose scraper returns is recorded in
`sources_succeeded` — independently of every other source's behaviour (so a
failure never aborts the remaining sources, and `scrape_all`, a total
function, never raises); when every attempted source fails the result is an
empty post list, no successes, and `sources_failed` listing every attempted
source. -/
theorem scrape_all_failure_isolation (cfg : ScraperConfig) (category : String)
    (scraperFn : CommunitySource → Except Unit (List ScrapedPost))
    (henabled : cfg.enabled = true) :
    ((scrape_all cfg category scraperFn).sources_failed
        = ((attemptedSources cfg category).filter
            (fun s => !(scraperFn s).isOk)).map CommunitySource.value
      ∧ (scrape_all cfg category scraperFn).sources_succeeded
        = ((attemptedSources cfg category).filter
            (fun s => (scraperFn s).isOk)).map CommunitySource.value)
      ∧ ((∀ s ∈ attemptedSources cfg category, scraperFn s = .error ()) →
          scrape_all cfg category scraperFn =
            { posts := []
              sources_succeeded := []
              sources_failed := (attemptedSources cfg category).map CommunitySource.value }) := by
  have hscr : scrape_all cfg category scraperFn
      = (categorySources category).foldl (scrapeStep cfg scraperFn) {} := by
    rw [scrape_all, henabled]
    rfl
  rw [hscr, foldl_scrapeStep]
  refine ⟨⟨by simp [attemptedSources], by simp [attemptedSources]⟩, ?_⟩
  intro hall
  have hfailall : ∀ s ∈ attemptedSources cfg category, !(scraperFn s).isOk := by
    intro s hs
    rw [hall s hs]
    rfl
  have hposts : ∀ l : List CommunitySource,
      (∀ s ∈ l.filter (fun s => !shouldSkip cfg s), scraperFn s = .error ()) →
      gatheredPosts cfg scraperFn l = [] := by
    intro l
    induction l with
    | nil => intro _; rfl
    | cons a rest ih =>
        intro hl
        rw [gatheredPosts]
        by_cases hskip : shouldSkip cfg a
        · rw [if_pos hskip, List.nil_append]
          apply ih
          intro s hs
          exact hl s (by simpa [hskip] using hs)
        · have ha : scraperFn a = .error () := by
            apply hl
            simp [hskip]
          rw [if_neg hskip, ha, List.nil_append]
          apply ih
          intro s hs
          apply hl
          rw [List.filter_cons]
          by_cases h2 : (!shouldSkip cfg a) = true
          · rw [if_pos h2]
            exact List.mem_cons_of_mem a hs
          · rw [if_neg h2]
            exact hs
  have hfilter : (attemptedSources cfg category).filter (fun s => (scraperFn s).isOk) = [] := by
    rw [List.filter_eq_nil_iff]
    intro s hs
    rw [hall s hs]
    simp [Except.isOk, Except.toBool]
  have hfilter2 : (attemptedSources cfg category).filter (fun s => !(scraperFn s).isOk)
      = attemptedSources cfg category := by
    apply List.filter_eq_self.mpr
    intro s hs
    rw [hall s hs]
    rfl
  simp only [attemptedSources] at hfilter hfilter2 ⊢
  rw [hfilter, hfilter2, hposts _ (by simpa [attemptedSources] using hall)]
  simp

/-- Witness: `scrape_all_failure_isolation` for a mobile_app run with every
flag enabled and every scraper raising. -/
theorem scrape_all_failure_isolation_witness :
    scrape_all ⟨true, true, true, 20⟩ "mobile_app" (fun _ => .error ()) =
      { posts := []
        sources_succeeded := []
        sources_failed := ["reddit", "hackernews", "twitter", "producthunt"] } := by
  have h := (scrape_all_failure_isolation ⟨true, true, true, 20⟩ "mobile_app"
    (fun _ => .error ()) rfl).2 (fun s _ => rfl)
  rw [h]
  rfl

/-! ## JSON values and a model of `json.loads`

`discovery.py` feeds a regex-extracted substring of the backend response to
`json.loads`.  JSON values and a strict recursive-descent reading of them
are modelled here (strings with the common escapes, integers, arrays,
objects; `\u` escapes and float literals are rejected rather than parsed —
no input used by a theorem below contains them). -/

/-- A JSON value. -/
inductive Json where
  | jnull
  | jbool (b : Bool)
  | jnum (n : ℤ)
  | jstr (s : List Char)
  | jarr (elems : List Json)
  | jobj (fields : List (List Char × Json))

/-- JSON insignificant whitespace. -/
def jsonWs (c : Char) : Bool := c = ' ' || c = '\n' || c = '\t' || c = '\r'

/-- Skip insignificant whitespace. -/
def skipWs (s : List Char) : List Char := s.dropWhile jsonWs

/-- Consume an expected literal character sequence. -/
def expectChars : List Char → List Char → Option (List Char)
  | [], s => some s
  | p :: ps, c :: cs => if c = p then expectChars ps cs else none
  | _ :: _, [] => none

/-- String body after the opening quote; the flag records whether the
previous character was an unconsumed backslash. -/
def parseStrChars : Bool → List Char → Option (List Char × List Char)
  | _, [] => none
  | true, c :: rest =>
      let u : Option Char :=
        if c = '"' then some '"'
        else if c = '\\' then some '\\'
        else if c = '/' then some '/'
        else if c = 'n' then some '\n'
        else if c = 't' then some '\t'
        else if c = 'r' then some '\r'
        else if c = 'b' then some '\x08'
        else if c = 'f' then some '\x0c'
        else none
      match u with
      | none => none
      | some d => (parseStrChars false rest).map (fun p => (d :: p.1, p.2))
  | false, c :: rest =>
      if c = '"' then some ([], rest)
      else if c = '\\' then parseStrChars true rest
      else (parseStrChars false rest).map (fun p => (c :: p.1, p.2))

/-- Accumulate decimal digits. -/
def parseDigitsAux : List Char → Nat → (Nat × List Char)
  | [], acc => (acc, [])
  | c :: cs, acc =>
      if c.isDigit then parseDigitsAux cs (acc * 10 + (c.toNat - 48)) else (acc, c :: cs)

/-- A nonempty digit run. -/
def parseNat : List Char → Option (Nat × List Char)
  | [] => none
  | c :: cs => if c.isDigit then some (parseDigitsAux cs (c.toNat - 48)) else none

/-- Does the remaining input continue a float literal? -/
def headIsFloatMark : List Char → Bool
  | c :: _ => c = '.' || c = 'e' || c = 'E'
  | [] => false

/-- Integer literal (float continuations rejected, see section comment). -/
def parseNum (s : List Char) : Option (ℤ × List Char) :=
  match s with
  | '-' :: rest =>
      match parseNat rest with
      | some (n, r) => if headIsFloatMark r then none else some (-(n : ℤ), r)
      | none => none
  | _ =>
      match parseNat s with
      | some (n, r) => if headIsFloatMark r then none else some ((n : ℤ), r)
      | none => none

mutual

/-- One JSON value, returning the unconsumed remainder. -/
def parseValue : Nat → List Char → Option (Json × List Char)
  | 0, _ => none
  | fuel + 1, input =>
      match skipWs input with
      | [] => none
      | c :: rest =>
          if c = '"' then (parseStrChars false rest).map (fun p => (Json.jstr p.1, p.2))
          else if c = '[' then parseArrayRest fuel rest
          else if c = '\x7b' then parseObjRest fuel rest
          else if c = 't' then (expectChars ['r', 'u', 'e'] rest).map (fun r => (Json.jbool true, r))
          else if c = 'f' then (expectChars ['a', 'l', 's', 'e'] rest).map (fun r => (Json.jbool false, r))
          else if c = 'n' then (expectChars ['u', 'l', 'l'] rest).map (fun r => (Json.jnull, r))
          else (parseNum (c :: rest)).map (fun p => (Json.jnum p.1, p.2))

/-- An array body after the opening bracket. -/
def parseArrayRest : Nat → List Char → Option (Json × List Char)
  | 0, _ => none
  | fuel + 1, input =>
      match skipWs input with
      | ']' :: rest => some (Json.jarr [], rest)
      | s =>
          match parseValue fuel s with
          | none => none
          | some (v, r) => parseArrayMore fuel [v] r

/-- Further array elements. -/
def parseArrayMore : Nat → List Json → List Char → Option (Json × List Char)
  | 0, _, _ => none
  | fuel + 1, acc, input =>
      match skipWs input with
      | ',' :: rest =>
          match parseValue fuel rest with
          | none => none
          | some (v, r) => parseArrayMore fuel (acc ++ [v]) r
      | ']' :: rest => some (Json.jarr acc, rest)
      | _ => none

/-- An object body after the opening brace. -/
def parseObjRest : Nat → List Char → Option (Json × List Char)
  | 0, _ => none
  | fuel + 1, input =>
      match skipWs input with
      | '\x7d' :: rest => some (Json.jobj [], rest)
      | s =>
          match parseMember fuel s with
          | none => none
          | some (kv, r) => parseObjMore fuel [kv] r

/-- Further object members. -/
def parseObjMore : Nat → List (List Char × Json) → List Char → Option (Json × List Char)
  | 0, _, _ => none
  | fuel + 1, acc, input =>
      match skipWs input with
      | ',' :: rest =>
          match parseMember fuel rest with
          | none => none
          | some (kv, r) => parseObjMore fuel (acc ++ [kv]) r
      | '\x7d' :: rest => some (Json.jobj acc, rest)
      | _ => none

/-- One `"key": value` member. -/
def parseMember : Nat → List Char → Option ((List Char × Json) × List Char)
  | 0, _ => none
  | fuel + 1, input =>
      match skipWs input with
      | '"' :: rest =>
          match parseStrChars false rest with
          | none => none
          | some (key, r1) =>
              match skipWs r1 with
              | ':' :: r2 =>
                  match parseValue fuel r2 with
                  | none => none
                  | some (v, r3) => some ((key, v), r3)
              | _ => none
      | _ => none

end

/-- `json.loads`: a single value consuming the whole input (modulo
whitespace), otherwise an error (`none`). -/
def parseJson (s : List Char) : Option Json :=
  match parseValue (2 * s.length + 4) s with
  | some (v, rest) => if skipWs rest = [] then some v else none
  | none => none

/-- `json.loads` specialised to the bracket-led substrings `discovery.py`
feeds it; a successful parse of such a substring is always an array. -/
def parseJsonArr (s : List Char) : Option (List Json) :=
  match parseJson s with
  | some (Json.jarr elems) => some elems
  | _ => none

/-! ## Hardware / SaaS discovery
(`discovery._discover_hardware_competitors`, lines 70-97, and
`discovery._discover_saas_competitors`, lines 100-127). -/

/-- The semantics of `re.search(r'\[.*\]', text, re.DOTALL).group()`: the
leftmost possible start is the first `[`, and the greedy `.*` stretches to
the last `]`; no match when no `]` follows a `[`. -/
def bracketSpan (s : List Char) : Option (List Char) :=
  match s.findIdx? (· = '['), s.reverse.findIdx? (· = ']') with
  | some i, some k =>
      let j := s.length - 1 - k
      if i < j then some ((s.drop i).take (j - i + 1)) else none
  | _, _ => none

/-- Python `dict` lookup where later duplicate keys win (as in
`json.loads`). -/
def lookupField (fields : List (List Char × Json)) (key : List Char) : Option Json :=
  fields.foldl (fun acc kv => if kv.1 = key then some kv.2 else acc) none

/-- Python `c.get(key, default)` — raises (`error`) when `c` is not a
dict, as `AttributeError` does in the source's comprehension. -/
def pyDictGet (c : Json) (key : List Char) (dflt : Json) : Except Unit Json :=
  match c with
  | Json.jobj fields => .ok ((lookupField fields key).getD dflt)
  | _ => .error ()

/-- One competitor-metadata dict as built by the hardware/saas discovery
comprehensions (`score` is the constant float `0.0`, modelled as `jnum 0`;
`funding_hint` is only present in hardware dicts). -/
structure CompetitorMeta where
  app_id : Json
  title : Json
  score : Json
  icon : Json
  platform : List Char
  source : Json
  description : Json
  funding_hint : Option Json

/-- The hardware meta comprehension body (discovery.py lines 93-96). -/
def hwMetaOf (c : Json) : Except Unit CompetitorMeta := do
  let app_id ← pyDictGet c "url".toList (Json.jstr [])
  let title ← pyDictGet c "title".toList (Json.jstr [])
  let source ← pyDictGet c "source".toList (Json.jstr "web".toList)
  let description ← pyDictGet c "description".toList (Json.jstr [])
  let funding ← pyDictGet c "funding_hint".toList (Json.jstr [])
  pure { app_id := app_id, title := title, score := Json.jnum 0, icon := Json.jstr [],
         platform := "hardware".toList, source := source, description := description,
         funding_hint := some funding }

/-- The saas meta comprehension body (discovery.py lines 123-126). -/
def saasMetaOf (c : Json) : Except Unit CompetitorMeta := do
  let app_id ← pyDictGet c "url".toList (Json.jstr [])
  let title ← pyDictGet c "title".toList (Json.jstr [])
  let source ← pyDictGet c "source".toList (Json.jstr "web".toList)
  let description ← pyDictGet c "description".toList (Json.jstr [])
  pure { app_id := app_id, title := title, score := Json.jnum 0, icon := Json.jstr [],
         platform := "web".toList, source := source, description := description,
         funding_hint := none }

/-- The list comprehension over `competitors[:8]`; the first non-dict
element raises. -/
def mapMeta (f : Json → Except Unit CompetitorMeta) :
    List Json → Except Unit (List CompetitorMeta)
  | [] => .ok []
  | c :: cs =>
      match f c with
      | .error e => .error e
      | .ok m =>
          match mapMeta f cs with
          | .error e => .error e
          | .ok ms => .ok (m :: ms)

/-- `_discover_hardware_competitors`, from the regex search onward (the
backend response text is the parameter): no match or a `json.loads`
failure returns `([], [])`; otherwise the first 8 parsed competitors are
mapped to metadata dicts.  Hardware discovery never produces reviews. -/
def discoverHardware (text : List Char) : Except Unit (List Unit × List CompetitorMeta) :=
  match bracketSpan text with
  | none => .ok ([], [])
  | some span =>
      match parseJsonArr span with
      | none => .ok ([], [])
      | some elems =>
          match mapMeta hwMetaOf (elems.take 8) with
          | .error e => .error e
          | .ok metas => .ok ([], metas)

/-- `_discover_saas_competitors`, same shape as the hardware branch. -/
def discoverSaas (text : List Char) : Except Unit (List Unit × List CompetitorMeta) :=
  match bracketSpan text with
  | none => .ok ([], [])
  | some span =>
      match parseJsonArr span with
      | none => .ok ([], [])
      | some elems =>
          match mapMeta saasMetaOf (elems.take 8) with
          | .error e => .error e
          | .ok metas => .ok ([], metas)

/-- The extraction the specification describes: scan left to right and take
the FIRST well-formed array-shaped substring (a prefix of some suffix that
parses as an array, trailing prose allowed). -/
def specFirstArray : List Char → Option (List Json)
  | [] => none
  | c :: rest =>
      if c = '[' then
        match parseValue (2 * (c :: rest).length + 4) (c :: rest) with
        | some (Json.jarr elems, _) => some elems
        | _ => specFirstArray rest
      else specFirstArray rest

/-- Hardware discovery as the specification describes it: extraction by
first well-formed array-shaped substring, then the same mapping. -/
def specDiscoverHardware (text : List Char) : Except Unit (List Unit × List CompetitorMeta) :=
  match specFirstArray text with
  | none => .ok ([], [])
  | some elems =>
      match mapMeta hwMetaOf (elems.take 8) with
      | .error e => .error e
      | .ok metas => .ok ([], metas)

/-- A successful comprehension yields one meta per input dict. -/
theorem mapMeta_length (f : Json → Except Unit CompetitorMeta) :
    ∀ (l : List Json) (ms : List CompetitorMeta),
      mapMeta f l = .ok ms → ms.length = l.length := by
  intro l
  induction l with
  | nil =>
      intro ms h
      rw [mapMeta] at h
      injection h with h1
      rw [← h1]
      rfl
  | cons c cs ih =>
      intro ms h
      rw [mapMeta] at h
      cases hf : f c with
      | error e =>
          rw [hf] at h
          exact absurd h (by simp)
      | ok m =>
          rw [hf] at h
          cases hm : mapMeta f cs with
          | error e =>
              rw [hm] at h
              exact absurd h (by simp)
          | ok ms2 =>
              rw [hm] at h
              injection h with h1
              rw [← h1, List.length_cons, List.length_cons, ih ms2 hm]

/-- The backend response text for the C7 counterexample: two complete
bracketed arrays embedded in prose. -/
def hwCexText : List Char :=
  "[\x7b\"title\":\"a\"\x7d] and [\x7b\"title\":\"b\"\x7d]".toList

/-- The competitor the spec-described extraction finds in `hwCexText`. -/
def hwCexMeta : CompetitorMeta :=
  { app_id := Json.jstr [], title := Json.jstr "a".toList, score := Json.jnum 0,
    icon := Json.jstr [], platform := "hardware".toList,
    source := Json.jstr "web".toList, description := Json.jstr [],
    funding_hint := some (Json.jstr []) }

/-- C7 counterexample: on a response embedding two arrays in prose the
first well-formed array-shaped substring parses and yields a competitor,
but the code's regex span runs from the first `[` to the LAST `]`, fails
`json.loads`, and returns empty lists — so the code's competitor list is
not the one obtained from the first well-formed array. -/
theorem hardware_extraction_not_first_array :
    discoverHardware hwCexText = .ok ([], [])
      ∧ specDiscoverHardware hwCexText = .ok ([], [hwCexMeta])
      ∧ discoverHardware hwCexText ≠ specDiscoverHardware hwCexText := by
  refine ⟨rfl, rfl, ?_⟩
  intro h
  rw [show discoverHardware hwCexText = .ok ([], []) from rfl,
    show specDiscoverHardware hwCexText = .ok ([], [hwCexMeta]) from rfl] at h
  injection h with h1
  injection h1 with h2 h3
  exact List.cons_ne_nil hwCexMeta [] h3.symm

/-- C7 amended: the competitor list is obtained by taking the substring
from the first `[` to the last `]` of the response and parsing it; when no
such span exists or the span fails to parse, both discovery branches
return empty lists without raising; a successful run returns no reviews
and at most 8 competitors. -/
theorem hardware_saas_discovery_fail_soft (text : List Char) :
    (bracketSpan text = none →
        discoverHardware text = .ok ([], []) ∧ discoverSaas text = .ok ([], []))
      ∧ (∀ span, bracketSpan text = some span → parseJsonArr span = none →
          discoverHardware text = .ok ([], []) ∧ discoverSaas text = .ok ([], []))
      ∧ (∀ r ms, discoverHardware text = .ok (r, ms) → r = [] ∧ ms.length ≤ 8)
      ∧ (∀ r ms, discoverSaas text = .ok (r, ms) → r = [] ∧ ms.length ≤ 8) := by
  refine ⟨?_, ?_, ?_, ?_⟩
  · intro hnone
    constructor
    · unfold discoverHardware
      rw [hnone]
    · unfold discoverSaas
      rw [hnone]
  · intro span hspan hparse
    constructor
    · simp only [discoverHardware, hspan, hparse]
    · simp only [discoverSaas, hspan, hparse]
  · intro r ms h
    unfold discoverHardware at h
    cases hbs : bracketSpan text with
    | none =>
        simp only [hbs] at h
        injection h with h1
        rw [Prod.mk.injEq] at h1
        obtain ⟨hr, hms⟩ := h1
        subst hr
        subst hms
        exact ⟨rfl, by simp⟩
    | some span =>
        simp only [hbs] at h
        cases hp : parseJsonArr span with
        | none =>
            simp only [hp] at h
            injection h with h1
            rw [Prod.mk.injEq] at h1
            obtain ⟨hr, hms⟩ := h1
            subst hr
            subst hms
            exact ⟨rfl, by simp⟩
        | some elems =>
            simp only [hp] at h
            cases hm : mapMeta hwMetaOf (elems.take 8) with
            | error e =>
                simp only [hm] at h
                exact absurd h (by simp)
            | ok metas =>
                simp only [hm] at h
                injection h with h1
                rw [Prod.mk.injEq] at h1
                obtain ⟨hr, hms⟩ := h1
                subst hr
                subst hms
                refine ⟨rfl, ?_⟩
                rw [mapMeta_length hwMetaOf _ _ hm]
                exact List.length_take_le 8 elems
  · intro r ms h
    unfold discoverSaas at h
    cases hbs : bracketSpan text with
    | none =>
        simp only [hbs] at h
        injection h with h1
        rw [Prod.mk.injEq] at h1
        obtain ⟨hr, hms⟩ := h1
        subst hr
        subst hms
        exact ⟨rfl, by simp⟩
    | some span =>
        simp only [hbs] at h
        cases hp : parseJsonArr span with
        | none =>
            simp only [hp] at h
            injection h with h1
            rw [Prod.mk.injEq] at h1
            obtain ⟨hr, hms⟩ := h1
            subst hr
            subst hms
            exact ⟨rfl, by simp⟩
        | some elems =>
            simp only [hp] at h
            cases hm : mapMeta saasMetaOf (elems.take 8) with
            | error e =>
                simp only [hm] at h
                exact absurd h (by simp)
            | ok metas =>
                simp only [hm] at h
                injection h with h1
                rw [Prod.mk.injEq] at h1
                obtain ⟨hr, hms⟩ := h1
                subst hr
                subst hms
                refine ⟨rfl, ?_⟩
                rw [mapMeta_length saasMetaOf _ _ hm]
                exact List.length_take_le 8 elems

/-- Witness: `hardware_saas_discovery_fail_soft` on a response with no
bracketed span at all. -/
theorem hardware_saas_discovery_fail_soft_witness :
    discoverHardware "no array".toList = .ok ([], [])
      ∧ discoverSaas "no array".toList = .ok ([], []) :=
  (hardware_saas_discovery_fail_soft "no array".toList).1 rfl

/-! ## Mobile / fintech discovery
(`discovery.discover_competitors_and_scrape`, lines 147-249).

The three directory steps are external effects; each is a parameter giving
the reviews/competitors it would contribute, or the exception it would
raise.  In the source the Play Store block sits directly inside the
function-wide `try` (line 170), while the iTunes block (lines 204-234) and
the web/startup block (lines 238-243) each carry their own inner
`try`/`except`. -/

/-- `discover_competitors_and_scrape` for the mobile_app/fintech branch,
from the store searches onward: an exception in the Play Store step
reaches the outer handler, which returns `([], [])`; iTunes and web step
exceptions are swallowed locally and contribute nothing. -/
def discoverMobile {ρ μ : Type} (play : Except Unit (List ρ × List μ))
    (itunes : Except Unit (List ρ × List μ)) (web : Except Unit (List μ)) :
    List ρ × List μ :=
  match play with
  | .error _ => ([], [])
  | .ok playRes =>
      let iosRes := match itunes with
        | .error _ => (([] : List ρ), ([] : List μ))
        | .ok x => x
      let webComps := match web with
        | .error _ => ([] : List μ)
        | .ok cs => cs
      (playRes.1 ++ iosRes.1, playRes.2 ++ iosRes.2 ++ webComps)

/-- C5 counterexample: with the Play Store step raising while the iTunes
and web steps would succeed with results, discovery returns `([], [])` —
unlike a run where the Play Store merely contributes nothing, so the Play
Store failure is NOT isolated and the other directories' results are
lost. -/
theorem play_store_failure_aborts_discovery :
    discoverMobile (Except.error ()) (Except.ok ([1], [2])) (Except.ok [3])
        ≠ discoverMobile (Except.ok (([] : List ℕ), ([] : List ℕ)))
            (Except.ok ([1], [2])) (Except.ok [3])
      ∧ discoverMobile (Except.error ()) (Except.ok ([1], [2])) (Except.ok [3])
        = (([] : List ℕ), ([] : List ℕ))
      ∧ discoverMobile (Except.ok (([] : List ℕ), ([] : List ℕ)))
          (Except.ok ([1], [2])) (Except.ok [3]) = ([1], [2, 3]) :=
  ⟨by decide, rfl, rfl⟩

/-- C5 amended: the iTunes directory step and the web/startup directory
step are each caught independently — a failure there is equivalent to that
step contributing nothing and the other steps still contribute — but a
Play Store step failure is caught only by the function-wide handler and
aborts the whole discovery to `([], [])`. -/
theorem itunes_web_failures_isolated {ρ μ : Type}
    (play itunes : Except Unit (List ρ × List μ)) (web : Except Unit (List μ)) :
    discoverMobile play (Except.error ()) web = discoverMobile play (Except.ok ([], [])) web
      ∧ discoverMobile play itunes (Except.error ()) = discoverMobile play itunes (Except.ok [])
      ∧ discoverMobile (Except.error ()) itunes web = ([], []) := by
  refine ⟨?_, ?_, rfl⟩
  · cases play with
    | error e => rfl
    | ok x => rfl
  · cases play with
    | error e => rfl
    | ok x => rfl

/-! ## Reviewless categories: synchronous vs streaming handling
(`routes.validate_idea` lines 99-100, `routes.validate_idea_stream` lines
186-196, `ai_analyzer.analyze_reviews_multi_agent` lines 124-125). -/

/-- The detail string of the 404 raised by `validate_idea`. -/
def http404Detail : String :=
  "No competitors found or failed to scrape reviews. Try providing specific App IDs."

/-- The message of the `ValueError` raised by
`analyze_reviews_multi_agent`. -/
def noReviewsDetail : String := "No reviews provided for analysis."

/-- `validate_idea`'s gate after discovery (lines 99-100): any run with an
empty review list is rejected with a 404 before analysis starts. -/
def validate_idea_gate {ρ μ : Type} (reviews : List ρ) (metas : List μ) :
    Except String (List ρ × List μ) :=
  if reviews.isEmpty then .error http404Detail else .ok (reviews, metas)

/-- `analyze_reviews_multi_agent`'s guard (lines 124-125). -/
def analyze_reviews_gate {ρ : Type} (reviews : List ρ) : Except String (List ρ) :=
  if reviews.isEmpty then .error noReviewsDetail else .ok reviews

/-- The researcher input selected by the streaming route. -/
inductive ResearchInput (ρ : Type) where
  | fromReviews (sample : List ρ)
  | fromCompetitors (entries : List (Json × Json))

/-- `validate_idea_stream` lines 186-196: when the review sample is empty
but competitors exist, substitute each competitor's title and description
as the research input; otherwise use the review sample. -/
def streamReviewsText {ρ : Type} (reviews : List ρ) (metas : List CompetitorMeta) :
    ResearchInput ρ :=
  if (reviews.take 200).isEmpty && !metas.isEmpty then
    ResearchInput.fromCompetitors ((metas.take 20).map fun c => (c.title, c.description))
  else ResearchInput.fromReviews (reviews.take 200)

/-- Hardware discovery never returns review records. -/
theorem discoverHardware_reviews_nil (text : List Char) (r : List Unit)
    (ms : List CompetitorMeta) (h : discoverHardware text = .ok (r, ms)) : r = [] := by
  unfold discoverHardware at h
  cases hbs : bracketSpan text with
  | none =>
      simp only [hbs] at h
      injection h with h1
      rw [Prod.mk.injEq] at h1
      exact h1.1.symm
  | some span =>
      simp only [hbs] at h
      cases hp : parseJsonArr span with
      | none =>
          simp only [hp] at h
          injection h with h1
          rw [Prod.mk.injEq] at h1
          exact h1.1.symm
      | some elems =>
          simp only [hp] at h
          cases hm : mapMeta hwMetaOf (elems.take 8) with
          | error e =>
              simp only [hm] at h
              exact absurd h (by simp)
          | ok metas =>
              simp only [hm] at h
              injection h with h1
              rw [Prod.mk.injEq] at h1
              exact h1.1.symm

/-- SaaS discovery never returns review records. -/
theorem discoverSaas_reviews_nil (text : List Char) (r : List Unit)
    (ms : List CompetitorMeta) (h : discoverSaas text = .ok (r, ms)) : r = [] := by
  unfold discoverSaas at h
  cases hbs : bracketSpan text with
  | none =>
      simp only [hbs] at h
      injection h with h1
      rw [Prod.mk.injEq] at h1
      exact h1.1.symm
  | some span =>
      simp only [hbs] at h
      cases hp : parseJsonArr span with
      | none =>
          simp only [hp] at h
          injection h with h1
          rw [Prod.mk.injEq] at h1
          exact h1.1.symm
      | some elems =>
          simp only [hp] at h
          cases hm : mapMeta saasMetaOf (elems.take 8) with
          | error e =>
              simp only [hm] at h
              exact absurd h (by simp)
          | ok metas =>
              simp only [hm] at h
              injection h with h1
              rw [Prod.mk.injEq] at h1
              exact h1.1.symm

/-- A single-array backend response for the C6 counterexample. -/
def hwSingleText : List Char := "[\x7b\"title\":\"a\"\x7d]".toList

/-- C6 counterexample: a hardware run that discovers one competitor has no
reviews, and the synchronous endpoint rejects it with the 404 "no
competitors" error instead of proceeding (the analyzer guard would also
raise `ValueError` on the empty review list). -/
theorem sync_endpoint_rejects_hardware_run :
    discoverHardware hwSingleText = .ok ([], [hwCexMeta])
      ∧ validate_idea_gate ([] : List Unit) [hwCexMeta] = .error http404Detail
      ∧ analyze_reviews_gate ([] : List Unit) = .error noReviewsDetail :=
  ⟨rfl, rfl, rfl⟩

/-- C6 amended: hardware/saas_web discovery returns competitors but never
review records; the STREAMING pipeline proceeds by substituting the
discovered competitors' titles and descriptions as the evidence text (for
the first 20 competitors); the SYNCHRONOUS endpoint instead treats the
absent reviews as an error, rejecting the run with a 404, as would the
analyzer's own empty-reviews guard. -/
theorem reviewless_categories_stream_vs_sync {ρ : Type} (text : List Char)
    (metas : List CompetitorMeta) (hne : metas ≠ []) :
    (∀ r ms, discoverHardware text = .ok (r, ms) → r = [])
      ∧ (∀ r ms, discoverSaas text = .ok (r, ms) → r = [])
      ∧ streamReviewsText ([] : List ρ) metas
          = ResearchInput.fromCompetitors ((metas.take 20).map fun c => (c.title, c.description))
      ∧ (∀ (μ : Type) (ms : List μ), validate_idea_gate ([] : List ρ) ms = .error http404Detail)
      ∧ analyze_reviews_gate ([] : List ρ) = .error noReviewsDetail := by
  refine ⟨fun r ms h => discoverHardware_reviews_nil text r ms h,
    fun r ms h => discoverSaas_reviews_nil text r ms h, ?_, fun μ ms => rfl, rfl⟩
  unfold streamReviewsText
  rw [if_pos]
  simp [hne]

/-- Witness: `reviewless_categories_stream_vs_sync` at a one-competitor
meta list. -/
theorem reviewless_categories_stream_vs_sync_witness :
    streamReviewsText ([] : List Unit) [hwCexMeta]
      = ResearchInput.fromCompetitors
          (([hwCexMeta].take 20).map fun c => (c.title, c.description)) :=
  (reviewless_categories_stream_vs_sync (ρ := Unit) "x".toList [hwCexMeta]
    (by simp)).2.2.1

/-! ## Streaming orchestration (`routes.validate_idea_stream`, lines
117-291).

The generator's effectful steps (API-key lookup, category detection,
discovery, researcher, PM, market intelligence) are oracles; each status /
category / result / error event the generator yields is recorded in
order.  An exception raised at any step is caught by the generator-wide
handler, which yields a single error event and stops; the
no-competitors check yields an error event and returns. -/

/-- The events emitted over the SSE stream (status events carry their step
index). -/
inductive StreamEvent where
  | status (step : Nat)
  | category
  | result
  | error
deriving DecidableEq

/-- The event sequence produced by `validate_idea_stream`'s generator for
one run, given the outcome of each effectful step. -/
def validate_idea_stream {α β γ δ ρ μ : Type} (apiKeyPresent : Bool)
    (cat : Except Unit α) (disc : Except Unit (List ρ × List μ))
    (research : Except Unit β) (pm : Except Unit γ) (market : Except Unit δ) :
    List StreamEvent :=
  if !apiKeyPresent then [StreamEvent.error]
  else
    StreamEvent.status 1 ::
      (match cat with
       | .error _ => [StreamEvent.error]
       | .ok _ =>
           StreamEvent.category :: StreamEvent.status 1 :: StreamEvent.status 2 ::
             (match disc with
              | .error _ => [StreamEvent.error]
              | .ok (revs, metas) =>
                  StreamEvent.status 2 ::
                    (if revs.isEmpty && metas.isEmpty then [StreamEvent.error]
                     else
                       StreamEvent.status 3 ::
                         (match research with
                          | .error _ => [StreamEvent.error]
                          | .ok _ =>
                              StreamEvent.status 3 :: StreamEvent.status 4 ::
                                (match pm with
                                 | .error _ => [StreamEvent.error]
                                 | .ok _ =>
                                     StreamEvent.status 4 :: StreamEvent.status 5 ::
                                       (match market with
                                        | .error _ => [StreamEvent.error]
                                        | .ok _ =>
                                            [StreamEvent.status 5, StreamEvent.result]))))))

/-- Terminal events. -/
def isTerminal : StreamEvent → Bool
  | StreamEvent.result => true
  | StreamEvent.error => true
  | _ => false

/-- C9: every event sequence the streaming endpoint can emit contains
exactly one terminal (result or error) event, and that terminal event is
the last event of the stream. -/
theorem stream_exactly_one_terminal {α β γ δ ρ μ : Type} (apiKeyPresent : Bool)
    (cat : Except Unit α) (disc : Except Unit (List ρ × List μ))
    (research : Except Unit β) (pm : Except Unit γ) (market : Except Unit δ) :
    ((validate_idea_stream apiKeyPresent cat disc research pm market).filter
        (fun e => isTerminal e)).length = 1
      ∧ (∃ e, (validate_idea_stream apiKeyPresent cat disc research pm market).getLast?
            = some e ∧ isTerminal e = true) := by
  cases apiKeyPresent with
  | false => exact ⟨rfl, StreamEvent.error, rfl, rfl⟩
  | true =>
      cases cat with
      | error e => exact ⟨rfl, StreamEvent.error, rfl, rfl⟩
      | ok a =>
          cases disc with
          | error e => exact ⟨rfl, StreamEvent.error, rfl, rfl⟩
          | ok rm =>
              obtain ⟨revs, metas⟩ := rm
              by_cases hre : (revs.isEmpty && metas.isEmpty) = true
              · have hev : validate_idea_stream true (Except.ok a)
                    (Except.ok (revs, metas)) research pm market
                    = [StreamEvent.status 1, StreamEvent.category, StreamEvent.status 1,
                        StreamEvent.status 2, StreamEvent.status 2, StreamEvent.error] := by
                  simp only [validate_idea_stream]
                  rw [hre]
                  rfl
                rw [hev]
                exact ⟨rfl, StreamEvent.error, rfl, rfl⟩
              · have hre2 : (revs.isEmpty && metas.isEmpty) = false :=
                  Bool.not_eq_true _ ▸ Bool.of_not_eq_true hre
                cases research with
                | error e =>
                    have hev : validate_idea_stream true (Except.ok a)
                        (Except.ok (revs, metas)) (Except.error e : Except Unit β) pm market
                        = [StreamEvent.status 1, StreamEvent.category, StreamEvent.status 1,
                            StreamEvent.status 2, StreamEvent.status 2, StreamEvent.status 3,
                            StreamEvent.error] := by
                      simp only [validate_idea_stream]
                      rw [hre2]
                      rfl
                    rw [hev]
                    exact ⟨rfl, StreamEvent.error, rfl, rfl⟩
                | ok rb =>
                    cases pm with
                    | error e =>
                        have hev : validate_idea_stream true (Except.ok a)
                            (Except.ok (revs, metas)) (Except.ok rb)
                            (Except.error e : Except Unit γ) market
                            = [StreamEvent.status 1, StreamEvent.category, StreamEvent.status 1,
                                StreamEvent.status 2, StreamEvent.status 2, StreamEvent.status 3,
                                StreamEvent.status 3, StreamEvent.status 4, StreamEvent.error] := by
                          simp only [validate_idea_stream]
                          rw [hre2]
                          rfl
                        rw [hev]
                        exact ⟨rfl, StreamEvent.error, rfl, rfl⟩
                    | ok pb =>
                        cases market with
                        | error e =>
                            have hev : validate_idea_stream true (Except.ok a)
                                (Except.ok (revs, metas)) (Except.ok rb) (Except.ok pb)
                                (Except.error e : Except Unit δ)
                                = [StreamEvent.status 1, StreamEvent.category,
                                    StreamEvent.status 1, StreamEvent.status 2,
                                    StreamEvent.status 2, StreamEvent.status 3,
                                    StreamEvent.status 3, StreamEvent.status 4,
                                    StreamEvent.status 4, StreamEvent.status 5,
                                    StreamEvent.error] := by
                              simp only [validate_idea_stream]
                              rw [hre2]
                              rfl
                            rw [hev]
                            exact ⟨rfl, StreamEvent.error, rfl, rfl⟩
                        | ok mb =>
                            have hev : validate_idea_stream true (Except.ok a)
                                (Except.ok (revs, metas)) (Except.ok rb) (Except.ok pb)
                                (Except.ok mb)
                                = [StreamEvent.status 1, StreamEvent.category,
                                    StreamEvent.status 1, StreamEvent.status 2,
                                    StreamEvent.status 2, StreamEvent.status 3,
                                    StreamEvent.status 3, StreamEvent.status 4,
                                    StreamEvent.status 4, StreamEvent.status 5,
                                    StreamEvent.status 5, StreamEvent.result] := by
                              simp only [validate_idea_stream]
                              rw [hre2]
                              rfl
                            rw [hev]
                            exact ⟨rfl, StreamEvent.result, rfl, rfl⟩

end Validatyr
